import Mathlib

/-!
Shallow embedding of the summarization core of `src/server.js`
(TextSummarizer).  Strings are modelled as `List Char` (JS strings are
sequences of UTF-16 units; all operations used by the code are
per-character).  The embedded pieces are:

* the input validation pipeline of the `POST /api/summarize` handler
  (lines 128-144): the falsy-text check, the `<script>...</script>`
  stripping regex, the TooShort check and the TooLong check;
* `mockSummarization` (lines 229-301): sentence segmentation by the
  regex `/[^\.!?]+[\.!?]+/g`, the `<= 3` truncation branch, the
  tier-dependent index selection, joining, final truncation and the
  sentinel;
* `getSummaryFromAI` (lines 158-226): the orchestrator choosing between
  the remote path and the fallback.  The single network attempt is I/O;
  its outcome is passed in as an explicit `RemoteOutcome` value.
-/

namespace TextSummarizer

/-- Strings as lists of characters. -/
abbrev Str := List Char

/-- The three summary length tiers (`summaryLength` values). -/
inductive LengthTier
| short
| medium
| long
deriving DecidableEq, Repr

/-- The ellipsis marker `'...'` appended on truncation. -/
def ellipsis : Str := ['.', '.', '.']

/-- JS sentence terminators: `.`, `!`, `?` (the regex class `[\.!?]`). -/
def isTerm (c : Char) : Bool := c = '.' || c = '!' || c = '?'

/-- One-pass scanner equivalent to the global regex match
`text.match(/[^\.!?]+[\.!?]+/g)` (server.js line 232): a match is a
nonempty run of non-terminators followed by a nonempty run of
terminators, matches are found left to right and are non-overlapping.
`acc` holds the characters of the current candidate match in reverse;
`inTerm` is true once the candidate has entered its terminator run. -/
def segsGo (acc : Str) (inTerm : Bool) : Str → List Str
| [] => if inTerm then [acc.reverse] else []
| c :: rest =>
  if inTerm then
    if isTerm c then segsGo (c :: acc) true rest
    else acc.reverse :: segsGo [c] false rest
  else
    if isTerm c then
      if acc.isEmpty then segsGo [] false rest
      else segsGo (c :: acc) true rest
    else segsGo (c :: acc) false rest

/-- All matches of `/[^\.!?]+[\.!?]+/g` in order ; `[]` when the regex
matches nowhere (JS `match` returns `null`). -/
def segsCore (s : Str) : List Str := segsGo [] false s

/-- `text.match(/[^\.!?]+[\.!?]+/g) || [text]` (server.js line 232). -/
def sentencesOf (s : Str) : List Str :=
  let segs := segsCore s
  if segs.isEmpty then [s] else segs

/-- JS whitespace for `String.prototype.trim` (ASCII part plus NBSP,
BOM and the Unicode line/paragraph separators). -/
def isJsSpace (c : Char) : Bool :=
  c = ' ' || c = '\t' || c = '\n' || c = '\r' ||
  c = '\x0b' || c = '\x0c' || c = '\u00A0' ||
  c = '\u2028' || c = '\u2029' || c = '\uFEFF'

/-- JS `s.trim()`: drop whitespace from both ends. -/
def jsTrim (l : Str) : Str :=
  ((l.dropWhile isJsSpace).reverse.dropWhile isJsSpace).reverse

/-- `sentences[i] ? sentences[i].trim() : ''` (server.js lines 257,
264, 271-273): out-of-range and empty both give `''`. -/
def trimSeg (sentences : List Str) (i : Nat) : Str :=
  let s := sentences.getD i []
  if s.isEmpty then [] else jsTrim s

/-- Concatenation of a list of strings. -/
def concatAll : List Str → Str
| [] => []
| s :: rest => s ++ concatAll rest

/-- JS `array.join(' ')`. -/
def joinSpace (parts : List Str) : Str := concatAll (parts.intersperse [' '])

/-- First-occurrence deduplication with insertion order, the JS
`[...new Set(indices)]` of server.js line 263. -/
def dedupFirstAux (seen : List Nat) : List Nat → List Nat
| [] => []
| a :: l => if a ∈ seen then dedupFirstAux seen l else a :: dedupFirstAux (a :: seen) l

/-- `[...new Set(l)]`. -/
def dedupFirst (l : List Nat) : List Nat := dedupFirstAux [] l

/-- The deduplicated index list of the `long` branch (server.js lines
261-263): `[...new Set([0, floor(n/4), floor(n/2), floor(3n/4), n-1])]`. -/
def longIndices (n : Nat) : List Nat :=
  dedupFirst [0, n / 4, n / 2, 3 * n / 4, n - 1]

/-- Truncation ceiling of the `<= 3` sentence branch (server.js lines
235-247): short=100, long=400, medium/default=200. -/
def truncLimit : LengthTier → Nat
| .short => 100
| .long => 400
| .medium => 200

/-- Final ceiling applied to the joined summary (server.js lines
282-294): short=150, long=500, medium/default=300. -/
def finalLimit : LengthTier → Nat
| .short => 150
| .long => 500
| .medium => 300

/-- `'Summary could not be generated from the provided text.'`
(server.js line 300). -/
def sentinelMsg : Str :=
  "Summary could not be generated from the provided text.".data

/-- The last two steps applied to the joined summary of the
index-selection branch (server.js lines 281-300): truncate to the
tier's final ceiling with an ellipsis, then `return summary || '...'`
(the sentinel when the string is empty). -/
def finalizeSummary (summary : Str) (tier : LengthTier) : Str :=
  let maxLength := finalLimit tier
  let summary2 :=
    if maxLength < summary.length then summary.take maxLength ++ ellipsis
    else summary
  if summary2.isEmpty then sentinelMsg else summary2

/-- `mockSummarization(text, language, summaryLength)` of server.js
lines 229-301, the deterministic fallback summarizer.  `language` is
accepted but never read, exactly as in the source. -/
def mockSummarization (text : Str) (language : Str) (tier : LengthTier) : Str :=
  let sentences := sentencesOf text
  if sentences.length ≤ 3 then
    let lengthLimit := truncLimit tier
    text.take lengthLimit ++ (if lengthLimit < text.length then ellipsis else [])
  else
    let summary :=
      match tier with
      | .short => trimSeg sentences 0
      | .long =>
        joinSpace (((longIndices sentences.length).map
          (fun i => trimSeg sentences i)).filter (fun s => !s.isEmpty))
      | .medium =>
        let first := trimSeg sentences 0
        let middle := trimSeg sentences (sentences.length / 2)
        let last := trimSeg sentences (sentences.length - 1)
        joinSpace ([first, middle, last].filter (fun s => !s.isEmpty))
    finalizeSummary summary tier

/-- Case-insensitive character comparison (the regex `i` flag). -/
def charEqCI (a b : Char) : Bool := a.toLower = b.toLower

/-- Does `s` start with the pattern `pat`, case-insensitively? -/
def startsWithCI : Str → Str → Bool
| [], _ => true
| _ :: _, [] => false
| p :: ps, c :: cs => charEqCI c p && startsWithCI ps cs

/-- JS word characters (`\w`), used for the `\b` after `<script`. -/
def isWordChar (c : Char) : Bool := c.isAlphanum || c = '_'

/-- The literal `<script` of the pattern. -/
def scriptOpenPat : Str := ['<', 's', 'c', 'r', 'i', 'p', 't']

/-- The literal `</script>` of the pattern. -/
def scriptClosePat : Str := ['<', '/', 's', 'c', 'r', 'i', 'p', 't', '>']

/-- Index of the first position of `s` where `</script>` starts
(case-insensitively), if any. -/
def findClose : Str → Option Nat
| [] => none
| c :: rest =>
  if startsWithCI scriptClosePat (c :: rest) then some 0
  else (findClose rest).map (· + 1)

/-- Length of the match of `/<script\b[^<]*(?:(?!<\/script>)<[^<]*)*<\/script>/i`
starting at the head of `s`, if one starts there.  The pattern matches
`<script` with a word boundary, then runs to the first following
`</script>` inclusive: the greedy star group cannot step over a `<`
that begins `</script>` (negative lookahead), and every other `<` must
be consumed by it, so the match always ends at the first close tag. -/
def matchLen (s : Str) : Option Nat :=
  if startsWithCI scriptOpenPat s then
    let rest := s.drop 7
    let bOk := match rest.head? with
      | none => true
      | some c => !isWordChar c
    if bOk then
      match findClose rest with
      | some j => some (7 + j + 9)
      | none => none
    else none
  else none

/-- Global regex replace with `''`: scan left to right, delete each
match, resume after it (JS `text.replace(/<script.../gi, '')`,
server.js line 137).  `fuel` bounds the recursion; every step consumes
at least one character, so `fuel = s.length` suffices. -/
def stripGo : Nat → Str → Str
| 0, l => l
| _ + 1, [] => []
| fuel + 1, c :: rest =>
  match matchLen (c :: rest) with
  | some n => stripGo fuel ((c :: rest).drop n)
  | none => c :: stripGo fuel rest

/-- `text.replace(/<script\b[^<]*(?:(?!<\/script>)<[^<]*)*<\/script>/gi, '')`. -/
def stripScripts (s : Str) : Str := stripGo s.length s

/-- Outcome of text validation in the `POST /api/summarize` handler
(server.js lines 128-144) for a string-typed `text` field. -/
inductive VResult
| noText
| tooShort
| tooLong
| ok (sanitized : Str)
deriving DecidableEq, Repr

/-- The validation pipeline of server.js lines 128-144 applied to a
string `text`: JS `if (!text)` rejects the empty string ('No text
provided'); then script blocks are stripped; then
`sanitizedText.trim().length < 50` rejects as too short; then
`sanitizedText.length > 10000` rejects as too long. -/
def validateText (text : Str) : VResult :=
  if text.isEmpty then .noText
  else if (jsTrim (stripScripts text)).length < 50 then .tooShort
  else if 10000 < (stripScripts text).length then .tooLong
  else .ok (stripScripts text)

/-- Outcome of the single remote completion attempt of
`getSummaryFromAI` (server.js lines 180-210).  The attempt is network
I/O, so it enters the embedding as an explicit value: `success s`
means an OK response whose body had `choices[0].message.content = s`;
the other constructors are the failure classes (non-OK status, body
without the expected choice structure, request that never reached the
endpoint). -/
inductive RemoteOutcome
| success (content : Str)
| httpError (status : Nat) (statusText : Str)
| formatError
| networkError
deriving DecidableEq, Repr

/-- Is the outcome a successful completion? -/
def RemoteOutcome.isSuccess : RemoteOutcome → Bool
| .success _ => true
| _ => false

/-- `getSummaryFromAI(text, language, summaryLength)` of server.js
lines 158-226.  With no API key (`if (!apiKey)`, true exactly for the
empty string) it returns `mockSummarization` without touching the
network; otherwise it returns the trimmed remote content on success
and falls back to `mockSummarization` on every failure (the `catch`
block, line 224). -/
def getSummaryFromAI (apiKey : Str) (remote : RemoteOutcome)
    (text : Str) (language : Str) (tier : LengthTier) : Str :=
  if apiKey.isEmpty then mockSummarization text language tier
  else
    match remote with
    | .success content => jsTrim content
    | _ => mockSummarization text language tier

/-! Concrete example inputs used by witnesses and counterexamples. -/

/-- The language value `'english'`. -/
def engLang : Str := "english".data

/-- A five-sentence example text. -/
def fiveSentText : Str := "a. b. c. d. e.".data

/-- The two-sentence example of the spec (`input of exactly 2 sentences`). -/
def twoSentText : Str := "Hi. Bye.".data

/-- A four-sentence text, exercising the `n = 4` index collisions. -/
def fourSentText : Str := "a.b.c.d.".data

/-- A text whose segmentation has at least one match. -/
def matchedText : Str := "a.b.".data

/-- Terminator-free trailing junk. -/
def junkTail : Str := "xy".data

/-- A nonempty API key. -/
def exKey : Str := ['k']

/-- The status text of an HTTP 401 response. -/
def unauthorizedText : Str := "Unauthorized".data

/-- The script-block example of the spec, §8. -/
def scriptExample : Str :=
  "<script>alert(1)</script>Hello world, this is a long enough passage to pass length validation easily.".data

/-- An 18-character script block. -/
def scriptBlockEx : Str := "<script>x</script>".data

/-- An original text of 10,018 characters whose script-stripped form
has exactly 10,000 characters. -/
def overlongScripted : Str := scriptBlockEx ++ List.replicate 10000 'a'

/-- Does the string consist only of non-terminator characters? -/
def allNonTerm (l : Str) : Bool := l.all (fun c => !isTerm c)

/-- Is a segment nonempty with a sentence terminator as last character? -/
def segClosed (seg : Str) : Bool := !seg.isEmpty && isTerm (seg.getLastD ' ')

/-- Are all segments of the list closed by a terminator? -/
def allSegsClosed (l : List Str) : Bool := l.all segClosed

/-! Theorems. -/

/-- C9: the fallback summarizer's output is identical for any two
`language` values at the same text and tier — `mockSummarization`
never reads its `language` parameter. -/
theorem mockSummarization_language_irrelevant
    (text l1 l2 : Str) (tier : LengthTier) :
    mockSummarization text l1 tier = mockSummarization text l2 tier := rfl

/-- C5: with no credential configured (`apiKey = ''`), the
orchestrator's result is bit-for-bit the fallback summarizer's result,
for every possible remote outcome — i.e. the result does not depend on
the network at all, so no remote call is attempted. -/
theorem getSummaryFromAI_no_key_eq_mock
    (remote : RemoteOutcome) (text language : Str) (tier : LengthTier) :
    getSummaryFromAI [] remote text language tier =
      mockSummarization text language tier := rfl

/-- C2: with a credential configured, every non-success remote outcome
(non-OK HTTP status, malformed body, network failure) makes the
orchestrator return exactly the fallback summarizer's result for the
same text, language and tier; it never surfaces an error. -/
theorem getSummaryFromAI_failure_falls_back
    (apiKey : Str) (remote : RemoteOutcome) (text language : Str)
    (tier : LengthTier) (hk : apiKey ≠ []) (hr : remote.isSuccess = false) :
    getSummaryFromAI apiKey remote text language tier =
      mockSummarization text language tier := by
  cases apiKey with
  | nil => exact absurd rfl hk
  | cons a l =>
    cases remote with
    | success c => simp [RemoteOutcome.isSuccess] at hr
    | httpError s t => rfl
    | formatError => rfl
    | networkError => rfl

/-- Witness for C2: a configured key and an HTTP 401 outcome still
produce exactly the fallback summary. -/
theorem getSummaryFromAI_failure_falls_back_witness :
    exKey ≠ [] ∧
    (RemoteOutcome.httpError 401 unauthorizedText).isSuccess = false ∧
    getSummaryFromAI exKey (RemoteOutcome.httpError 401 unauthorizedText)
        fiveSentText engLang .medium =
      mockSummarization fiveSentText engLang .medium :=
  ⟨by decide, by decide,
    getSummaryFromAI_failure_falls_back _ _ _ _ _ (by decide) (by decide)⟩

/-- C3 counterexample: for the empty-string input the fallback
summarizer returns the empty string, not the sentinel message — the
`<= 3` truncation branch returns before the sentinel check is ever
reached. -/
theorem mockSummarization_empty_input_cex :
    mockSummarization [] engLang .medium = [] ∧
    mockSummarization [] engLang .medium ≠ sentinelMsg := by decide

/-- C3 amended: the fallback summarizer always returns a string (it is
a total function), but the empty-string input takes the truncation
branch and yields the empty string rather than the sentinel; the
sentinel check only guards the index-selection branch's output. -/
theorem mockSummarization_empty_input_eq_nil
    (language : Str) (tier : LengthTier) :
    mockSummarization [] language tier = [] := by
  cases tier <;> rfl

/-- C7: when the segment count is at most 3 (e.g. any two-sentence
text), the fallback summarizer takes the truncation branch for every
tier: it returns the original text cut to the tier ceiling
(short=100, medium=200, long=400) with the ellipsis appended exactly
when the text exceeded that ceiling. -/
theorem mockSummarization_le_three_truncates
    (text language : Str) (tier : LengthTier)
    (h : (sentencesOf text).length ≤ 3) :
    mockSummarization text language tier =
      text.take (truncLimit tier) ++
        (if truncLimit tier < text.length then ellipsis else []) := by
  unfold mockSummarization
  rw [if_pos h]

/-- Witness for C7: the spec's two-sentence example takes the
truncation branch (here the text is under the ceiling, so it is
returned unchanged with no ellipsis). -/
theorem mockSummarization_le_three_truncates_witness :
    (sentencesOf twoSentText).length ≤ 3 ∧
    mockSummarization twoSentText engLang .medium =
      twoSentText.take (truncLimit .medium) ++
        (if truncLimit .medium < twoSentText.length then ellipsis else []) :=
  ⟨by decide, mockSummarization_le_three_truncates _ _ _ (by decide)⟩

/-- The final-ceiling step never yields more than the ceiling plus the
ellipsis (the sentinel is itself 54 characters, under every ceiling). -/
theorem finalizeSummary_length_le (summary : Str) (tier : LengthTier) :
    (finalizeSummary summary tier).length ≤ finalLimit tier + ellipsis.length := by
  have hsent : sentinelMsg.length ≤ finalLimit tier + ellipsis.length := by
    cases tier <;> decide
  have htake : (summary.take (finalLimit tier)).length ≤ finalLimit tier :=
    List.length_take_le _ _
  simp only [finalizeSummary]
  split
  · split
    · exact hsent
    · simp only [List.length_append]
      omega
  · split
    · exact hsent
    · omega

/-- C4: on every input and tier — truncation branch and index-selection
branch alike — the fallback summarizer's output has length at most the
tier's final ceiling (short=150, medium=300, long=500) plus the length
of the ellipsis marker. -/
theorem mockSummarization_length_le (text language : Str) (tier : LengthTier) :
    (mockSummarization text language tier).length ≤
      finalLimit tier + ellipsis.length := by
  simp only [mockSummarization]
  split
  · have h1 : (text.take (truncLimit tier)).length ≤ truncLimit tier :=
      List.length_take_le _ _
    have h2 : truncLimit tier + ellipsis.length ≤
        finalLimit tier + ellipsis.length := by
      cases tier <;> decide
    have h3 : (if truncLimit tier < text.length then ellipsis else []).length ≤
        ellipsis.length := by
      split
      · exact le_refl _
      · simp
    simp only [List.length_append]
    omega
  · exact finalizeSummary_length_le _ _

/-- First-occurrence deduplication yields a sublist of the input. -/
theorem dedupFirstAux_sublist (l seen : List Nat) :
    List.Sublist (dedupFirstAux seen l) l := by
  induction l generalizing seen with
  | nil => exact List.nil_sublist _
  | cons a l ih =>
    by_cases h : a ∈ seen
    · simp only [dedupFirstAux, if_pos h]
      exact (ih seen).cons a
    · simp only [dedupFirstAux, if_neg h]
      exact (ih (a :: seen)).cons₂ a

/-- Every element kept by `dedupFirstAux` avoids the `seen` set. -/
theorem mem_dedupFirstAux (x : Nat) (l seen : List Nat)
    (hx : x ∈ dedupFirstAux seen l) : x ∉ seen := by
  induction l generalizing seen with
  | nil => simp [dedupFirstAux] at hx
  | cons a l ih =>
    by_cases h : a ∈ seen
    · rw [dedupFirstAux, if_pos h] at hx
      exact ih seen hx
    · rw [dedupFirstAux, if_neg h] at hx
      rcases List.mem_cons.mp hx with he | hm
      · subst he; exact h
      · intro hxs
        exact (ih (a :: seen) hm) (List.mem_cons_of_mem a hxs)

/-- `[...new Set(l)]` has no duplicates. -/
theorem dedupFirstAux_nodup (l seen : List Nat) : (dedupFirstAux seen l).Nodup := by
  induction l generalizing seen with
  | nil => simp [dedupFirstAux]
  | cons a l ih =>
    by_cases h : a ∈ seen
    · simp only [dedupFirstAux, if_pos h]
      exact ih seen
    · simp only [dedupFirstAux, if_neg h]
      refine List.nodup_cons.mpr ⟨?_, ih (a :: seen)⟩
      intro ha
      exact (mem_dedupFirstAux a l (a :: seen) ha) (List.mem_cons_self a seen)

/-- `dedupFirst` is a sublist of its input. -/
theorem dedupFirst_sublist (l : List Nat) : List.Sublist (dedupFirst l) l :=
  dedupFirstAux_sublist l []

/-- `dedupFirst` has no duplicates. -/
theorem dedupFirst_nodup (l : List Nat) : (dedupFirst l).Nodup :=
  dedupFirstAux_nodup l []

/-- For `n > 3` the deduplicated `long`-tier index list is strictly
increasing. -/
theorem longIndices_sorted_lt (n : Nat) (hn : 3 < n) :
    (longIndices n).Pairwise (· < ·) := by
  have hch : List.Chain' (· ≤ ·) [0, n / 4, n / 2, 3 * n / 4, n - 1] := by
    simp only [List.chain'_cons, List.chain'_singleton, and_true]
    refine ⟨?_, ?_, ?_, ?_⟩ <;> omega
  have hle : ([0, n / 4, n / 2, 3 * n / 4, n - 1] : List Nat).Pairwise (· ≤ ·) :=
    List.chain'_iff_pairwise.mp hch
  have hle2 : (longIndices n).Pairwise (· ≤ ·) :=
    hle.sublist (dedupFirst_sublist _)
  have hnd : (longIndices n).Pairwise (· ≠ ·) := dedupFirst_nodup _
  exact (hle2.and hnd).imp (fun hab => lt_of_le_of_ne hab.1 hab.2)

/-- C6: for every text with more than three segments, the `long` tier's
deduplicated index list `[...new Set([0, ⌊n/4⌋, ⌊n/2⌋, ⌊3n/4⌋, n−1])]`
has no duplicates (the floor-division collisions for small `n` are
collapsed) and is strictly increasing, so the selected segments appear
in their original relative order. -/
theorem longIndices_nodup_increasing (text : Str)
    (h : 3 < (sentencesOf text).length) :
    (longIndices (sentencesOf text).length).Nodup ∧
    (longIndices (sentencesOf text).length).Pairwise (· < ·) :=
  ⟨dedupFirst_nodup _, longIndices_sorted_lt _ h⟩

/-- Witness for C6 at a four-segment text, where `⌊n/4⌋ = 1`,
`⌊3n/4⌋ = 3` and `n−1 = 3` collide before deduplication. -/
theorem longIndices_nodup_increasing_witness :
    3 < (sentencesOf fourSentText).length ∧
    ((longIndices (sentencesOf fourSentText).length).Nodup ∧
     (longIndices (sentencesOf fourSentText).length).Pairwise (· < ·)) :=
  ⟨by decide, longIndices_nodup_increasing fourSentText (by decide)⟩

/-- C8 amended: for every nonempty candidate string, validation fails
with TooShort exactly when the script-stripped string, after trimming,
has fewer than 50 characters.  (The empty string is rejected earlier
by the JS falsy check `if (!text)` as missing text, see the
counterexample.) -/
theorem validateText_tooShort_iff (text : Str) (h : text ≠ []) :
    (validateText text = .tooShort ↔
      (jsTrim (stripScripts text)).length < 50) := by
  have he : text.isEmpty = false := by
    cases text with
    | nil => exact absurd rfl h
    | cons c l => rfl
  unfold validateText
  rw [if_neg (by simp [he])]
  by_cases hl : (jsTrim (stripScripts text)).length < 50
  · rw [if_pos hl]
    simp [hl]
  · rw [if_neg hl]
    constructor
    · intro hcontra
      split at hcontra <;> simp_all
    · intro hc
      exact absurd hc hl

/-- Witness for C8 at the spec's script-block example: the text is
nonempty, its stripped remainder has at least 50 trimmed characters,
and validation accordingly does not report TooShort. -/
theorem validateText_tooShort_iff_witness :
    scriptExample ≠ [] ∧
    (validateText scriptExample = .tooShort ↔
      (jsTrim (stripScripts scriptExample)).length < 50) :=
  ⟨by decide, validateText_tooShort_iff _ (by decide)⟩

/-- C8 counterexample: the empty string has a trimmed stripped length
below 50, yet validation reports missing text (JS `if (!text)` treats
`''` as falsy), not TooShort — so the biconditional of the claim fails
at the empty candidate string. -/
theorem validateText_empty_not_tooShort_cex :
    (jsTrim (stripScripts [])).length < 50 ∧
    validateText [] = .noText ∧ validateText [] ≠ .tooShort := by decide

/-- C1 amended: validation fails with TooLong exactly when the text is
nonempty, survives the TooShort check, and its *sanitized*
(script-stripped) form exceeds 10,000 characters.  The check is on the
sanitized string, not the original. -/
theorem validateText_tooLong_iff (text : Str) :
    (validateText text = .tooLong ↔
      (text ≠ [] ∧ 50 ≤ (jsTrim (stripScripts text)).length ∧
        10000 < (stripScripts text).length)) := by
  cases text with
  | nil => simp [validateText]
  | cons c l =>
    unfold validateText
    rw [if_neg (by simp)]
    by_cases hl : (jsTrim (stripScripts (c :: l))).length < 50
    · rw [if_pos hl]
      constructor
      · intro hcontra
        simp at hcontra
      · intro hc
        omega
    · rw [if_neg hl]
      by_cases hlen : 10000 < (stripScripts (c :: l)).length
      · rw [if_pos hlen]
        simp only [true_iff, ne_eq, reduceCtorEq, not_false_eq_true, true_and]
        exact ⟨by omega, hlen⟩
      · rw [if_neg hlen]
        constructor
        · intro hcontra
          simp at hcontra
        · intro hc
          exact absurd hc.2.2 hlen

/-- If the head of the string cannot start `<script`, the stripping
scan keeps it and moves on; a string with no case-insensitive `<` at
all is left unchanged. -/
theorem stripGo_no_open (f : Nat) (l : Str)
    (h : ∀ c ∈ l, charEqCI c '<' = false) : stripGo f l = l := by
  induction f generalizing l with
  | zero => rfl
  | succ f ih =>
    cases l with
    | nil => rfl
    | cons c rest =>
      have hc : charEqCI c '<' = false := h c (List.mem_cons_self _ _)
      have hm : matchLen (c :: rest) = none := by
        unfold matchLen
        rw [if_neg (by simp [scriptOpenPat, startsWithCI, hc])]
      rw [stripGo, hm]
      exact congrArg (c :: ·) (ih rest (fun d hd => h d (List.mem_cons_of_mem c hd)))

/-- The pattern matches the 18-character block `<script>x</script>` at
the head of any string, and only that block. -/
theorem matchLen_scriptBlockEx (l : Str) :
    matchLen (scriptBlockEx ++ l) = some 18 := rfl

/-- One stripping step deletes a leading `<script>x</script>` block. -/
theorem stripGo_scriptBlockEx (f : Nat) (l : Str) :
    stripGo (f + 1) (scriptBlockEx ++ l) = stripGo f l := rfl

/-- Dropping leading whitespace from a repetition of a non-whitespace
character changes nothing. -/
theorem dropWhile_replicate_nonspace (n : Nat) (c : Char)
    (h : isJsSpace c = false) :
    List.dropWhile isJsSpace (List.replicate n c) = List.replicate n c := by
  cases n with
  | zero => rfl
  | succ k =>
    rw [List.replicate_succ, List.dropWhile_cons]
    simp [h]

/-- Trimming a repetition of a non-whitespace character changes
nothing. -/
theorem jsTrim_replicate_nonspace (n : Nat) (c : Char)
    (h : isJsSpace c = false) :
    jsTrim (List.replicate n c) = List.replicate n c := by
  unfold jsTrim
  rw [dropWhile_replicate_nonspace n c h, List.reverse_replicate,
    dropWhile_replicate_nonspace n c h, List.reverse_replicate]

/-- The 10,018-character example has length 10,018. -/
theorem overlongScripted_length : overlongScripted.length = 10018 := by
  have h18 : scriptBlockEx.length = 18 := rfl
  show (scriptBlockEx ++ List.replicate 10000 'a').length = 10018
  rw [List.length_append, h18, List.length_replicate]

/-- Stripping the 10,018-character example removes exactly the script
block, leaving 10,000 characters. -/
theorem stripScripts_overlongScripted :
    stripScripts overlongScripted = List.replicate 10000 'a' := by
  have h1 : stripScripts overlongScripted
      = stripGo 10018 (scriptBlockEx ++ List.replicate 10000 'a') := by
    show stripGo overlongScripted.length overlongScripted
      = stripGo 10018 (scriptBlockEx ++ List.replicate 10000 'a')
    rw [overlongScripted_length]
    exact congrArg (stripGo 10018) rfl
  rw [h1, show (10018 : Nat) = 10017 + 1 from rfl, stripGo_scriptBlockEx]
  refine stripGo_no_open _ _ ?_
  intro c hc
  rw [List.eq_of_mem_replicate hc]
  decide

/-- C1 counterexample: an original text of 10,018 characters whose
script-stripped form has only 10,000 characters is *not* rejected with
TooLong — the handler checks `sanitizedText.length`, not the original
length, so the claim's "still rejected with TooLong" fails here. -/
theorem validateText_tooLong_checks_sanitized_cex :
    10000 < overlongScripted.length ∧
    validateText overlongScripted ≠ .tooLong := by
  constructor
  · rw [overlongScripted_length]
    norm_num
  · unfold validateText
    rw [if_neg (by rw [show overlongScripted.isEmpty = false from rfl]; simp)]
    rw [stripScripts_overlongScripted,
      jsTrim_replicate_nonspace 10000 'a' (by decide)]
    rw [if_neg (by rw [List.length_replicate]; norm_num)]
    rw [if_neg (by rw [List.length_replicate]; norm_num)]
    intro hcontra
    exact VResult.noConfusion hcontra

/-- The scanner emits nothing out of terminator-free input when no
candidate match is underway. -/
theorem segsGo_all_nonterm_false (junk : Str) (acc : Str)
    (hj : ∀ c ∈ junk, isTerm c = false) : segsGo acc false junk = [] := by
  induction junk generalizing acc with
  | nil => rfl
  | cons c rest ih =>
    have hc : isTerm c = false := hj c (List.mem_cons_self _ _)
    rw [segsGo, if_neg (by simp [hc]), if_neg (by simp [hc])]
    exact ih (c :: acc) (fun d hd => hj d (List.mem_cons_of_mem c hd))

/-- The scanner in its terminator run, fed only terminator-free input,
emits exactly the pending segment. -/
theorem segsGo_all_nonterm_true (junk : Str) (acc : Str)
    (hj : ∀ c ∈ junk, isTerm c = false) : segsGo acc true junk = [acc.reverse] := by
  cases junk with
  | nil => rfl
  | cons c rest =>
    have hc : isTerm c = false := hj c (List.mem_cons_self _ _)
    rw [segsGo, if_pos rfl, if_neg (by simp [hc]),
      segsGo_all_nonterm_false rest [c] (fun d hd => hj d (List.mem_cons_of_mem c hd))]

/-- Appending terminator-free characters never changes the matches the
scanner produces. -/
theorem segsGo_nonterm_append (s junk : Str) (acc : Str) (b : Bool)
    (hj : ∀ c ∈ junk, isTerm c = false) :
    segsGo acc b (s ++ junk) = segsGo acc b s := by
  induction s generalizing acc b with
  | nil =>
    rw [List.nil_append]
    cases b with
    | false => rw [segsGo_all_nonterm_false junk acc hj]; rfl
    | true => rw [segsGo_all_nonterm_true junk acc hj]; rfl
  | cons c rest ih =>
    rw [List.cons_append]
    cases b with
    | true =>
      by_cases ht : isTerm c = true
      · rw [segsGo, if_pos rfl, if_pos (by simp [ht]), segsGo, if_pos rfl,
          if_pos (by simp [ht]), ih]
      · rw [segsGo, if_pos rfl,
          if_neg (by simp [Bool.not_eq_true] at ht; simp [ht]), segsGo, if_pos rfl,
          if_neg (by simp [Bool.not_eq_true] at ht; simp [ht]), ih]
    | false =>
      by_cases ht : isTerm c = true
      · by_cases ha : acc.isEmpty = true
        · rw [segsGo, if_neg (by simp), if_pos (by simp [ht]), if_pos ha, segsGo,
            if_neg (by simp), if_pos (by simp [ht]), if_pos ha, ih]
        · rw [segsGo, if_neg (by simp), if_pos (by simp [ht]), if_neg ha, segsGo,
            if_neg (by simp), if_pos (by simp [ht]), if_neg ha, ih]
      · rw [segsGo, if_neg (by simp),
          if_neg (by simp [Bool.not_eq_true] at ht; simp [ht]), segsGo,
          if_neg (by simp),
          if_neg (by simp [Bool.not_eq_true] at ht; simp [ht]), ih]

/-- The last element of a reversed list is its head. -/
theorem getLastD_reverse (l : Str) (d : Char) :
    l.reverse.getLastD d = l.headD d := by
  cases l with
  | nil => rfl
  | cons c rest =>
    rw [List.reverse_cons, List.getLastD_eq_getLast?, List.getLast?_concat]
    rfl

/-- Every segment the scanner emits is nonempty and ends with a
sentence terminator (the regex keeps the terminator run attached). -/
theorem segsGo_closed (s : Str) (acc : Str) (b : Bool)
    (hacc : b = true → acc ≠ [] ∧ isTerm (acc.headD ' ') = true) :
    ∀ seg ∈ segsGo acc b s, seg ≠ [] ∧ isTerm (seg.getLastD ' ') = true := by
  induction s generalizing acc b with
  | nil =>
    intro seg hseg
    cases b with
    | false => simp [segsGo] at hseg
    | true =>
      simp [segsGo] at hseg
      subst hseg
      obtain ⟨h1, h2⟩ := hacc rfl
      refine ⟨?_, ?_⟩
      · intro hh
        exact h1 (by simpa using congrArg List.reverse hh)
      · rw [getLastD_reverse]
        exact h2
  | cons c rest ih =>
    intro seg hseg
    cases b with
    | true =>
      by_cases ht : isTerm c = true
      · rw [segsGo, if_pos rfl, if_pos (by simp [ht])] at hseg
        exact ih (c :: acc) true (fun _ => ⟨by simp, by simpa using ht⟩) seg hseg
      · rw [segsGo, if_pos rfl,
          if_neg (by simp [Bool.not_eq_true] at ht; simp [ht])] at hseg
        rcases List.mem_cons.mp hseg with he | hm
        · subst he
          obtain ⟨h1, h2⟩ := hacc rfl
          refine ⟨?_, ?_⟩
          · intro hh
            exact h1 (by simpa using congrArg List.reverse hh)
          · rw [getLastD_reverse]
            exact h2
        · exact ih [c] false (fun h => absurd h (by decide)) seg hm
    | false =>
      by_cases ht : isTerm c = true
      · by_cases ha : acc.isEmpty = true
        · rw [segsGo, if_neg (by simp), if_pos (by simp [ht]), if_pos ha] at hseg
          exact ih [] false (fun h => absurd h (by decide)) seg hseg
        · rw [segsGo, if_neg (by simp), if_pos (by simp [ht]), if_neg ha] at hseg
          exact ih (c :: acc) true (fun _ => ⟨by simp, by simpa using ht⟩) seg hseg
      · rw [segsGo, if_neg (by simp),
          if_neg (by simp [Bool.not_eq_true] at ht; simp [ht])] at hseg
        exact ih (c :: acc) false (fun h => absurd h (by decide)) seg hseg

/-- C10 amended: when the segmentation pattern matches somewhere in the
text (there is a non-terminator immediately followed by a terminator),
appending terminator-free trailing characters leaves the segment list
unchanged — such trailing text never enters any segment — and every
segment is nonempty and ends in a terminator.  (A text with a
terminator but no such adjacency, e.g. `.a`, is still kept whole; see
the counterexample.) -/
theorem sentencesOf_trailing_junk (text junk : Str)
    (h : (segsCore text).isEmpty = false) (hj : allNonTerm junk = true) :
    sentencesOf (text ++ junk) = sentencesOf text ∧
    allSegsClosed (sentencesOf text) = true := by
  have hj' : ∀ c ∈ junk, isTerm c = false := by
    intro c hc
    have := List.all_eq_true.mp hj c hc
    simpa using this
  have hseg : segsCore (text ++ junk) = segsCore text :=
    segsGo_nonterm_append text junk [] false hj'
  have hone : sentencesOf text = segsCore text := by
    unfold sentencesOf
    rw [if_neg (by simp [h])]
  refine ⟨?_, ?_⟩
  · unfold sentencesOf
    rw [hseg]
    simp [h]
  · rw [hone]
    have hclosed := segsGo_closed text [] false (fun hh => absurd hh (by decide))
    rw [allSegsClosed, List.all_eq_true]
    intro seg hs
    obtain ⟨h1, h2⟩ := hclosed seg hs
    rw [segClosed]
    cases seg with
    | nil => exact absurd rfl h1
    | cons a l => simp only [List.isEmpty_cons, Bool.not_false, Bool.true_and]; exact h2

/-- Witness for C10: `a.b.` followed by the terminator-free junk `xy`
segments exactly like `a.b.` itself, and both segments end in `.`. -/
theorem sentencesOf_trailing_junk_witness :
    (segsCore matchedText).isEmpty = false ∧ allNonTerm junkTail = true ∧
    (sentencesOf (matchedText ++ junkTail) = sentencesOf matchedText ∧
     allSegsClosed (sentencesOf matchedText) = true) :=
  ⟨by decide, by decide, sentencesOf_trailing_junk _ _ (by decide) (by decide)⟩

/-- C10 counterexample: the text `.a` contains a sentence terminator,
yet the regex finds no match (no non-terminator is ever followed by a
terminator), so `match(...) || [text]` keeps the whole text — the
trailing `a` after the last terminator *is* in the segment list, and a
text containing a terminator is kept whole as a single segment. -/
theorem sentencesOf_terminator_kept_whole_cex :
    ('.' ∈ (['.', 'a'] : Str) ∧ isTerm '.' = true) ∧
    sentencesOf ['.', 'a'] = [['.', 'a']] := by decide

end TextSummarizer
